import Mathlib

/-!
# Verification of the A/V codec and streaming layer

Shallow embedding of the core media pipeline of the repository:
the Base64 codec and PCM codec (`src/utils/audio.ts`), the WAV
container builder (`src/utils/audio.ts`), the video frame sampler
(`src/services/geminiService.ts`) and the live voice-chat
capture/playback engine (`src/components/VoiceChat.tsx`).

Bytes are modelled as `Nat` values `< 256`, JavaScript numbers on the
audio path as `ℚ` (every float32 sample is a rational, and the scalings
by powers of two performed by the code are exact in float64), and the
stateful voice-chat message handler as an explicit state-passing
function over an `EngineState` record.
-/

namespace Synapse

/-! ## Base64 codec (`src/utils/audio.ts`: `encode` / `decode`)

`encode` builds a binary string from the byte array and applies `btoa`;
`decode` applies `atob` and reads the char codes back.  We model the
composition at the byte level: `btoa` over a string of char codes < 256
is standard Base64 with `=` padding, `atob` its inverse. -/

/-- The Base64 alphabet used by `btoa`/`atob`. -/
def b64Alphabet : List Char :=
  "ABCDEFGHIJKLMNOPQRSTUVWXYZabcdefghijklmnopqrstuvwxyz0123456789+/".toList

/-- Character for a 6-bit group. -/
def b64Char (n : Nat) : Char := b64Alphabet.getD n 'A'

/-- Inverse lookup used by `atob`; `none` on a character outside the
alphabet (`atob` throws in that case). -/
def b64Index (c : Char) : Option Nat := b64Alphabet.indexOf? c

/-- Model of `btoa` on the binary string built from `bytes`: groups of three bytes
become four alphabet characters; a trailing group of one or two bytes is
padded with `=`. -/
def encodeChunks : List Nat → List Char
  | a :: b :: c :: rest =>
      b64Char (a / 4) :: b64Char (a % 4 * 16 + b / 16) ::
      b64Char (b % 16 * 4 + c / 64) :: b64Char (c % 64) :: encodeChunks rest
  | [a, b] =>
      [b64Char (a / 4), b64Char (a % 4 * 16 + b / 16), b64Char (b % 16 * 4), '=']
  | [a] =>
      [b64Char (a / 4), b64Char (a % 4 * 16), '=', '=']
  | [] => []

/-- The function `encode(bytes)` from `src/utils/audio.ts`: base64 string of the bytes. -/
def encode (bytes : List Nat) : String := ⟨encodeChunks bytes⟩

/-- Model of `atob` followed by the `charCodeAt` loop of `decode`: four characters
at a time back into three (or, at a padded tail, two or one) bytes;
`none` models the `DecodeError` thrown by `atob` on malformed input. -/
def decodeChunks : List Char → Option (List Nat)
  | [] => some []
  | c1 :: c2 :: c3 :: c4 :: rest => do
      let n1 ← b64Index c1
      let n2 ← b64Index c2
      if c3 = '=' then
        if c4 = '=' ∧ rest = [] then
          some [n1 * 4 + n2 / 16]
        else none
      else do
        let n3 ← b64Index c3
        if c4 = '=' then
          if rest = [] then some [n1 * 4 + n2 / 16, n2 % 16 * 16 + n3 / 4]
          else none
        else do
          let n4 ← b64Index c4
          let tail ← decodeChunks rest
          some ((n1 * 4 + n2 / 16) :: (n2 % 16 * 16 + n3 / 4) ::
                (n3 % 4 * 64 + n4) :: tail)
  | _ => none

/-- The function `decode(base64)` from `src/utils/audio.ts`. -/
def decode (s : String) : Option (List Nat) := decodeChunks s.data

/-- Every 6-bit group decodes back to itself. -/
lemma b64Index_b64Char {n : Nat} (h : n < 64) : b64Index (b64Char n) = some n := by
  interval_cases n <;> rfl

/-- Alphabet characters are never `=`. -/
lemma b64Char_ne_eq {n : Nat} (h : n < 64) : b64Char n ≠ '=' := by
  interval_cases n <;> decide

lemma decodeChunks_encodeChunks : ∀ bytes : List Nat,
    (∀ b ∈ bytes, b < 256) → decodeChunks (encodeChunks bytes) = some bytes := by
  intro bytes
  induction bytes using encodeChunks.induct with
  | case1 a b c rest ih =>
    intro h
    have ha : a < 256 := h a (by simp)
    have hb : b < 256 := h b (by simp)
    have hc : c < 256 := h c (by simp)
    have h1 : a / 4 < 64 := by omega
    have h2 : a % 4 * 16 + b / 16 < 64 := by omega
    have h3 : b % 16 * 4 + c / 64 < 64 := by omega
    have h4 : c % 64 < 64 := by omega
    rw [encodeChunks, decodeChunks]
    rw [b64Index_b64Char h1, b64Index_b64Char h2]
    simp only [Option.bind_eq_bind, Option.some_bind, b64Char_ne_eq h3, if_neg,
      reduceIte]
    rw [b64Index_b64Char h3]
    simp only [Option.some_bind, b64Char_ne_eq h4, reduceIte]
    rw [b64Index_b64Char h4]
    simp only [Option.some_bind]
    rw [ih (by intro x hx; exact h x (by simp [hx]))]
    simp only [Option.some_bind, Option.some.injEq, List.cons.injEq]
    exact ⟨by omega, by omega, by omega, trivial⟩
  | case2 a b =>
    intro h
    have ha : a < 256 := h a (by simp)
    have hb : b < 256 := h b (by simp)
    have g1 : a / 4 < 64 := by omega
    have g2 : a % 4 * 16 + b / 16 < 64 := by omega
    have g3 : b % 16 * 4 < 64 := by omega
    rw [encodeChunks, decodeChunks]
    rw [b64Index_b64Char g1, b64Index_b64Char g2]
    simp only [Option.bind_eq_bind, Option.some_bind, b64Char_ne_eq g3, reduceIte]
    rw [b64Index_b64Char g3]
    simp only [Option.some_bind, reduceIte, and_self, Option.some.injEq,
      List.cons.injEq]
    exact ⟨by omega, by omega, trivial⟩
  | case3 a =>
    intro h
    have ha : a < 256 := h a (by simp)
    have g1 : a / 4 < 64 := by omega
    have g2 : a % 4 * 16 < 64 := by omega
    rw [encodeChunks, decodeChunks]
    rw [b64Index_b64Char g1, b64Index_b64Char g2]
    simp only [Option.bind_eq_bind, Option.some_bind, reduceIte, and_self,
      Option.some.injEq, List.cons.injEq]
    exact ⟨by omega, trivial⟩
  | case4 => intro _; rfl

/-! ## PCM codec (`src/utils/audio.ts`: `createBlob` / `decodeAudioData`)

Samples are `ℚ`: every finite float32 value is rational, and the only
arithmetic the code performs on them (multiplication and division by the
power of two `32768`) is exact in float64, so the rational model follows
the code bit-for-bit on representable inputs.

`int16[i] = data[i] * 32768` stores through JavaScript's `ToInt16`
conversion: the number is truncated toward zero and then wrapped into
the signed 16-bit range (two's complement).  The `Int16Array`'s backing
buffer is then reinterpreted as bytes, i.e. each element contributes its
two's-complement bit pattern little-endian. -/

/-- JavaScript truncation toward zero of a finite number
(`ToIntegerOrInfinity`). -/
def jsTrunc (q : ℚ) : Int := if 0 ≤ q then ⌊q⌋ else ⌈q⌉

/-- JavaScript `ToInt16`: truncate, wrap modulo 2^16 into `[-32768, 32767]`. -/
def toInt16 (q : ℚ) : Int :=
  if jsTrunc q % 65536 < 32768 then jsTrunc q % 65536 else jsTrunc q % 65536 - 65536

/-- The signed element stored by `int16[i] = data[i] * 32768`. -/
def pcm16Sample (s : ℚ) : Int := toInt16 (s * 32768)

/-- The two bytes a signed `Int16Array` element contributes when the
buffer is viewed as a `Uint8Array` (little-endian bit pattern). -/
def int16LeBytes (v : Int) : List Nat :=
  [(v % 65536).toNat % 256, (v % 65536).toNat / 256]

/-- The byte buffer of `createBlob`'s `Int16Array`: the per-sample loop
followed by the `new Uint8Array(int16.buffer)` view. -/
def createBlobBytes (data : List ℚ) : List Nat :=
  (data.map pcm16Sample).flatMap int16LeBytes

/-- The `GeminiBlob` shape returned by `createBlob`. -/
structure GeminiBlob where
  data : String
  mimeType : String
deriving DecidableEq

/-- The function `createBlob(data)` from `src/utils/audio.ts`. -/
def createBlob (data : List ℚ) : GeminiBlob :=
  { data := encode (createBlobBytes data), mimeType := "audio/pcm;rate=16000" }

/-- Errors on the audio decode path.  `rangeError` is the JavaScript
`RangeError` thrown by `new Int16Array(buffer)` on an odd-length buffer;
`malformedAudioError` is the validation error named by the spec, which
the source never raises. -/
inductive AudioError where
  | rangeError
  | malformedAudioError
deriving DecidableEq

/-- A decoded audio buffer: sample rate plus one float array per channel
(`ctx.createBuffer` is external browser plumbing, modelled as a plain
constructor). -/
structure AudioBuffer where
  sampleRate : Nat
  channels : List (List ℚ)
deriving DecidableEq

/-- Reading an `Int16Array` view over a byte buffer: consecutive
little-endian pairs, reinterpreted as signed 16-bit values.  Entries of
the byte list model `Uint8Array` elements and are `< 256`. -/
def bytesToInt16 : List Nat → List Int
  | lo :: hi :: rest =>
      (if hi < 128 then (lo + hi * 256 : Int) else (lo + hi * 256 : Int) - 65536)
        :: bytesToInt16 rest
  | _ => []

/-- The function `decodeAudioData(data, ctx, sampleRate, numChannels)` from
`src/utils/audio.ts`.  No length validation is performed by the source:
`frameCount = dataInt16.length / numChannels` is an ordinary JavaScript
division that may be fractional, and the buffer length it is passed to
is its truncation; samples are read at `i * numChannels + channel` and
divided by `32768.0`. -/
def decodeAudioData (data : List Nat) (sampleRate numChannels : Nat) :
    Except AudioError AudioBuffer :=
  if data.length % 2 ≠ 0 then .error .rangeError
  else .ok
    { sampleRate := sampleRate
      channels := (List.range numChannels).map fun ch =>
        (List.range (⌊((bytesToInt16 data).length : ℚ) / (numChannels : ℚ)⌋).toNat).map
          fun i => ((bytesToInt16 data).getD (i * numChannels + ch) 0 : ℚ) / 32768 }

/-- The 16-bit two's-complement bit pattern of the truncation of
`s * 32768` — the spec-side description of one encoded sample. -/
def specPcm16Bits (s : ℚ) : Nat := ((jsTrunc (s * 32768)) % 65536).toNat

lemma specPcm16Bits_lt (s : ℚ) : specPcm16Bits s < 65536 := by
  unfold specPcm16Bits; omega

lemma int16LeBytes_eq_specBits (s : ℚ) :
    int16LeBytes (pcm16Sample s) = [specPcm16Bits s % 256, specPcm16Bits s / 256] := by
  unfold int16LeBytes pcm16Sample toInt16 specPcm16Bits
  split_ifs <;> simp only [List.cons.injEq, and_true] <;> omega

lemma jsTrunc_le_self_add_one (q : ℚ) : |(jsTrunc q : ℚ) - q| < 1 := by
  unfold jsTrunc
  split_ifs with h
  · rw [abs_sub_lt_iff]
    constructor
    · linarith [Int.floor_le q]
    · linarith [Int.lt_floor_add_one q]
  · rw [abs_sub_lt_iff]
    constructor
    · linarith [Int.ceil_lt_add_one q]
    · linarith [Int.le_ceil q]

lemma jsTrunc_bounds {s : ℚ} (h1 : -1 ≤ s) (h2 : s < 1) :
    -32768 ≤ jsTrunc (s * 32768) ∧ jsTrunc (s * 32768) < 32768 := by
  have hs1 : (-32768 : ℚ) ≤ s * 32768 := by linarith
  have hs2 : s * 32768 < 32768 := by linarith
  unfold jsTrunc
  split_ifs with h
  · constructor
    · exact Int.le_floor.mpr (by exact_mod_cast hs1)
    · have hfl : (⌊s * 32768⌋ : ℚ) ≤ s * 32768 := Int.floor_le _
      have : (⌊s * 32768⌋ : ℚ) < 32768 := by linarith
      exact_mod_cast this
  · constructor
    · have hce : s * 32768 ≤ (⌈s * 32768⌉ : ℚ) := Int.le_ceil _
      have : ((-32768 : Int) : ℚ) ≤ (⌈s * 32768⌉ : ℚ) := by push_cast; linarith
      exact_mod_cast this
    · have : (⌈s * 32768⌉ : Int) ≤ 0 := Int.ceil_le.mpr (by push_neg at h; exact_mod_cast h.le)
      omega

lemma pcm16Sample_of_in_range {s : ℚ} (h1 : -1 ≤ s) (h2 : s < 1) :
    pcm16Sample s = jsTrunc (s * 32768) := by
  obtain ⟨hl, hr⟩ := jsTrunc_bounds h1 h2
  unfold pcm16Sample toInt16
  split_ifs <;> omega

lemma bytesToInt16_int16LeBytes {v : Int} (h1 : -32768 ≤ v) (h2 : v < 32768)
    (rest : List Nat) :
    bytesToInt16 (int16LeBytes v ++ rest) = v :: bytesToInt16 rest := by
  unfold int16LeBytes
  rw [List.cons_append, List.cons_append, List.nil_append, bytesToInt16]
  congr 1
  split <;> push_cast <;> omega

lemma createBlobBytes_cons (a : ℚ) (l : List ℚ) :
    createBlobBytes (a :: l) = int16LeBytes (pcm16Sample a) ++ createBlobBytes l := rfl

lemma createBlobBytes_length (data : List ℚ) :
    (createBlobBytes data).length = 2 * data.length := by
  induction data with
  | nil => rfl
  | cons a l ih =>
    rw [createBlobBytes_cons, List.length_append, ih]
    simp only [int16LeBytes, List.length_cons, List.length_nil, List.length_cons]
    omega

lemma createBlobBytes_bytes_lt (data : List ℚ) :
    ∀ b ∈ createBlobBytes data, b < 256 := by
  induction data with
  | nil => intro b hb; cases hb
  | cons a l ih =>
    intro b hb
    rw [createBlobBytes_cons, List.mem_append] at hb
    rcases hb with hb | hb
    · have hu : ((pcm16Sample a) % 65536).toNat < 65536 := by omega
      simp only [int16LeBytes, List.mem_cons, List.not_mem_nil, or_false] at hb
      rcases hb with rfl | rfl <;> omega
    · exact ih b hb

lemma bytesToInt16_createBlobBytes (samples : List ℚ)
    (h : ∀ s ∈ samples, -1 ≤ s ∧ s < 1) :
    bytesToInt16 (createBlobBytes samples)
      = samples.map fun s => jsTrunc (s * 32768) := by
  induction samples with
  | nil => rfl
  | cons a l ih =>
    obtain ⟨h1, h2⟩ := h a (List.mem_cons_self a l)
    obtain ⟨hb1, hb2⟩ := jsTrunc_bounds h1 h2
    rw [createBlobBytes_cons, pcm16Sample_of_in_range h1 h2,
      bytesToInt16_int16LeBytes hb1 hb2, List.map_cons]
    congr 1
    exact ih fun s hs => h s (List.mem_cons_of_mem _ hs)

lemma map_range_getD {α β : Type} (l : List α) (d : α) (f : α → β) :
    (List.range l.length).map (fun i => f (l.getD i d)) = l.map f := by
  induction l with
  | nil => rfl
  | cons a t ih =>
    rw [List.length_cons, List.range_succ_eq_map, List.map_cons, List.map_map]
    simp only [Function.comp_def, List.getD_cons_zero, List.getD_cons_succ]
    rw [ih, List.map_cons]

/-! ## WAV container builder (`src/utils/audio.ts`: `createWavBlob`)

`createWavBlob` fills a zero-initialised 44-byte `DataView` header by
sequential non-overlapping little-endian writes at offsets 0..43 and
copies the PCM bytes from offset 44 on; the buffer is therefore the
concatenation of the written fields in offset order.  `setUint32` /
`setUint16` wrap their value modulo 2^32 / 2^16, which the byte
extraction below performs. -/

/-- Little-endian bytes written by `DataView.setUint16`. -/
def u16le (v : Nat) : List Nat := [v % 256, v / 256 % 256]

/-- Little-endian bytes written by `DataView.setUint32`. -/
def u32le (v : Nat) : List Nat :=
  [v % 256, v / 256 % 256, v / 65536 % 256, v / 16777216 % 256]

/-- Bytes written by `writeString` (ASCII char codes via `setUint8`). -/
def strBytes (s : String) : List Nat := s.data.map fun c => c.toNat % 256

/-- The function `createWavBlob(pcmData, config)` from `src/utils/audio.ts`:
the 44-byte RIFF/WAVE header fields in offset order, then the PCM bytes. -/
def createWavBlob (pcmData : List Nat) (sampleRate numChannels : Nat) : List Nat :=
  strBytes "RIFF" ++ u32le (36 + pcmData.length) ++ strBytes "WAVE" ++
  strBytes "fmt " ++ u32le 16 ++ u16le 1 ++ u16le numChannels ++ u32le sampleRate ++
  u32le (sampleRate * (numChannels * 2)) ++ u16le (numChannels * 2) ++ u16le 16 ++
  strBytes "data" ++ u32le pcmData.length ++ pcmData

/-- Byte at an offset of a buffer (0 beyond the end). -/
def nthByte : List Nat → Nat → Nat
  | [], _ => 0
  | b :: _, 0 => b
  | _ :: l, n + 1 => nthByte l n

/-- Read back a little-endian 16-bit field at a byte offset. -/
def readU16le (l : List Nat) (off : Nat) : Nat :=
  nthByte l off + 256 * nthByte l (off + 1)

/-- Read back a little-endian 32-bit field at a byte offset. -/
def readU32le (l : List Nat) (off : Nat) : Nat :=
  nthByte l off + 256 * nthByte l (off + 1) + 65536 * nthByte l (off + 2) +
    16777216 * nthByte l (off + 3)

/-- The WAV buffer flattened to its 44 header bytes followed by the PCM. -/
lemma createWavBlob_flatten (pcm : List Nat) (sr nc : Nat) :
    createWavBlob pcm sr nc
      = 82 :: 73 :: 70 :: 70 ::
        ((36 + pcm.length) % 256) :: ((36 + pcm.length) / 256 % 256) ::
        ((36 + pcm.length) / 65536 % 256) :: ((36 + pcm.length) / 16777216 % 256) ::
        87 :: 65 :: 86 :: 69 ::
        102 :: 109 :: 116 :: 32 ::
        16 :: 0 :: 0 :: 0 ::
        1 :: 0 ::
        (nc % 256) :: (nc / 256 % 256) ::
        (sr % 256) :: (sr / 256 % 256) :: (sr / 65536 % 256) :: (sr / 16777216 % 256) ::
        (sr * (nc * 2) % 256) :: (sr * (nc * 2) / 256 % 256) ::
        (sr * (nc * 2) / 65536 % 256) :: (sr * (nc * 2) / 16777216 % 256) ::
        (nc * 2 % 256) :: (nc * 2 / 256 % 256) ::
        16 :: 0 ::
        100 :: 97 :: 116 :: 97 ::
        (pcm.length % 256) :: (pcm.length / 256 % 256) ::
        (pcm.length / 65536 % 256) :: (pcm.length / 16777216 % 256) ::
        pcm := by
  have hR : strBytes "RIFF" = [82, 73, 70, 70] := rfl
  have hW : strBytes "WAVE" = [87, 65, 86, 69] := rfl
  have hF : strBytes "fmt " = [102, 109, 116, 32] := rfl
  have hD : strBytes "data" = [100, 97, 116, 97] := rfl
  have h16 : u32le 16 = [16, 0, 0, 0] := rfl
  have h1 : u16le 1 = [1, 0] := rfl
  have h16b : u16le 16 = [16, 0] := rfl
  rw [createWavBlob, hR, hW, hF, hD, h16, h1, h16b]
  simp only [u32le, u16le, List.cons_append, List.nil_append]

/-! ## Video frame sampler (`src/services/geminiService.ts`:
`extractFramesFromVideo`)

The `captureFrame` / `seeked` event recursion: starting from
`currentTime = 0`, each round checks `currentTime > duration ||
frames.length >= maxFrames`, otherwise captures one frame at the seek
target `currentTime` (modelled as the captured timestamp) and advances
`currentTime` by `interval = 1 / fps`.  Every round that does not stop
pushes exactly one frame, which bounds the recursion by
`maxFrames - frames.length`. -/

def captureFrames (duration interval : ℚ) (maxFrames : Nat) (t : ℚ)
    (frames : List ℚ) : List ℚ :=
  if h : duration < t ∨ maxFrames ≤ frames.length then frames
  else captureFrames duration interval maxFrames (t + interval) (frames ++ [t])
termination_by maxFrames - frames.length
decreasing_by
  push_neg at h
  simp only [List.length_append, List.length_cons, List.length_nil]
  omega

/-- The function `extractFramesFromVideo(videoUrl, fps, maxFrames)`: the list
of captured frame timestamps for a video of the given duration. -/
def extractFramesFromVideo (duration fps : ℚ) (maxFrames : Nat) : List ℚ :=
  captureFrames duration (1 / fps) maxFrames 0 []

/-- Closed form of the capture loop at 1 fps over integer durations. -/
lemma captureFrames_one (d m : ℕ) : ∀ (k : ℕ) (fr : List ℚ) (t : ℕ),
    m - fr.length = k →
    captureFrames (d : ℚ) 1 m (t : ℚ) fr
      = fr ++ (List.range' t (min (d + 1 - t) (m - fr.length))).map
          (fun n : ℕ => (n : ℚ)) := by
  intro k
  induction k with
  | zero =>
    intro fr t hk
    rw [captureFrames]
    rw [dif_pos (Or.inr (by omega))]
    rw [show min (d + 1 - t) (m - fr.length) = 0 by omega]
    simp
  | succ k ih =>
    intro fr t hk
    rw [captureFrames]
    by_cases hd : (d : ℚ) < (t : ℚ)
    · rw [dif_pos (Or.inl hd)]
      have hdt : d < t := by exact_mod_cast hd
      rw [show min (d + 1 - t) (m - fr.length) = 0 by omega]
      simp
    · have htd : t ≤ d := by exact_mod_cast not_lt.mp hd
      rw [dif_neg (by push_neg; exact ⟨not_lt.mp hd, by omega⟩)]
      rw [show (t : ℚ) + 1 = ((t + 1 : ℕ) : ℚ) by push_cast; ring]
      rw [ih (fr ++ [(t : ℚ)]) (t + 1)
        (by simp only [List.length_append, List.length_cons, List.length_nil]; omega)]
      rw [List.append_assoc]
      congr 1
      have hL : (fr ++ [(t : ℚ)]).length = fr.length + 1 := by simp
      rw [hL]
      have hmin : min (d + 1 - (t + 1)) (m - (fr.length + 1))
          = min (d + 1 - t) (m - fr.length) - 1 := by omega
      rw [hmin]
      obtain ⟨c, hc⟩ : ∃ c, min (d + 1 - t) (m - fr.length) = c + 1 :=
        ⟨min (d + 1 - t) (m - fr.length) - 1, by omega⟩
      rw [hc]
      simp only [Nat.add_sub_cancel]
      rw [List.range'_succ, List.map_cons]
      simp

/-- Closed form of `extractFramesFromVideo` at 1 fps: the timestamps
`0, 1, …` up to and including the duration, capped at `maxFrames`. -/
lemma extractFramesFromVideo_one (d m : ℕ) :
    extractFramesFromVideo (d : ℚ) 1 m
      = (List.range (min (d + 1) m)).map fun n : ℕ => (n : ℚ) := by
  unfold extractFramesFromVideo
  rw [show (1 : ℚ) / 1 = 1 by norm_num, show (0 : ℚ) = ((0 : ℕ) : ℚ) by norm_num]
  rw [captureFrames_one d m (m - 0) [] 0 (by simp)]
  simp [List.range_eq_range']

/-! ## Live voice-chat engine (`src/components/VoiceChat.tsx`)

The `onmessage` callback and `stopConversation` manipulate the refs
`nextStartTimeRef`, `sourcesRef`, `currentInputTranscription`,
`currentOutputTranscription` and the `conversation` state.  We model
them as one record and the handler as a state-passing function over it.
`sourcesRef` (the active set) holds source ids; every source ever
created is kept in `sources` (newest first) with a `stopped` flag so
that "every buffer that was stopped" is expressible.  `createdAt`
records the output clock at scheduling time (a ghost field used only in
specifications).  The clock `currentTime` of the output `AudioContext`
and `Date.now()` are parameters of the handler; an aborted handler
(the awaited `decodeAudioData` promise rejecting) is `none`. -/

inductive Speaker where
  | user
  | model
deriving DecidableEq

/-- A `ConversationTurn` as in `VoiceChat.tsx`. -/
structure ConversationTurn where
  id : String
  speaker : Speaker
  text : String
deriving DecidableEq

/-- One `AudioBufferSourceNode` scheduled for playback. -/
structure ScheduledSource where
  id : Nat
  startTime : ℚ
  duration : ℚ
  createdAt : ℚ
  stopped : Bool
deriving DecidableEq

/-- The mutable refs of the voice-chat component. -/
structure EngineState where
  nextStartTime : ℚ
  activeIds : List Nat
  sources : List ScheduledSource
  nextId : Nat
  currentInputTranscription : String
  currentOutputTranscription : String
  conversation : List ConversationTurn
deriving DecidableEq

/-- The refs as initialised on mount (`useRef(0)`, empty set, empty
strings, empty conversation). -/
def initState : EngineState :=
  { nextStartTime := 0, activeIds := [], sources := [], nextId := 0,
    currentInputTranscription := "", currentOutputTranscription := "",
    conversation := [] }

/-- The fields of a `LiveServerMessage` the handler reads.  `audioData`
holds the base64-decoded inline audio bytes when present (the code's
`base64Audio` truthiness check means an absent or empty string is
`none`). -/
structure LiveServerMessage where
  inputTranscription : Option String
  outputTranscription : Option String
  turnComplete : Bool
  audioData : Option (List Nat)
  interrupted : Bool

/-- Lines 75–80: transcription deltas append to the two accumulators. -/
def applyTranscriptionDeltas (s : EngineState) (m : LiveServerMessage) : EngineState :=
  let s1 := match m.inputTranscription with
    | some t => { s with currentInputTranscription := s.currentInputTranscription ++ t }
    | none => s
  match m.outputTranscription with
  | some t => { s1 with currentOutputTranscription := s1.currentOutputTranscription ++ t }
  | none => s1

/-- JavaScript `String.prototype.trim`: strip whitespace from both ends
(modelled structurally on the character list so it evaluates). -/
def jsTrim (s : String) : String :=
  ⟨((s.data.dropWhile Char.isWhitespace).reverse.dropWhile Char.isWhitespace).reverse⟩

/-- Lines 82–100: on turn-complete, trim both accumulators, append the
non-empty ones as user-then-model turns, and reset the accumulators. -/
def applyTurnComplete (s : EngineState) (now : Nat) (m : LiveServerMessage) : EngineState :=
  if m.turnComplete then
    let userInput := jsTrim s.currentInputTranscription
    let modelOutput := jsTrim s.currentOutputTranscription
    let turnsToAdd :=
      (if userInput ≠ "" then [ConversationTurn.mk ("user-" ++ toString now) .user userInput]
       else [])
      ++ (if modelOutput ≠ "" then [ConversationTurn.mk ("model-" ++ toString now) .model modelOutput]
          else [])
    { s with conversation := s.conversation ++ turnsToAdd,
             currentInputTranscription := "", currentOutputTranscription := "" }
  else s

/-- Lines 102–114: lift `nextStartTime` to the playback clock, decode the
chunk, start a new source at `nextStartTime`, advance the cursor by the
buffer's duration and track the source in the active set.  `none` when
the awaited decode rejects (the handler aborts). -/
def applyAudio (s : EngineState) (currentTime : ℚ) (m : LiveServerMessage) :
    Option EngineState :=
  match m.audioData with
  | none => some s
  | some bytes =>
      let nst := max s.nextStartTime currentTime
      match decodeAudioData bytes 24000 1 with
      | .error _ => none
      | .ok buf =>
          let dur : ℚ := (((buf.channels.getD 0 []).length : ℚ)) / 24000
          some { s with
            nextStartTime := nst + dur,
            activeIds := s.nextId :: s.activeIds,
            sources := ⟨s.nextId, nst, dur, currentTime, false⟩ :: s.sources,
            nextId := s.nextId + 1 }

/-- Lines 116–122: on interruption, stop every source in the active set,
clear the set, and reset `nextStartTime` to zero. -/
def applyInterrupted (s : EngineState) (m : LiveServerMessage) : EngineState :=
  if m.interrupted then
    { s with
      sources := s.sources.map fun src =>
        if src.id ∈ s.activeIds then { src with stopped := true } else src,
      activeIds := [],
      nextStartTime := 0 }
  else s

/-- The whole `onmessage` callback, in source order: transcription
deltas, turn-complete, audio scheduling, interruption. -/
def handleMessage (s : EngineState) (now : Nat) (currentTime : ℚ)
    (m : LiveServerMessage) : Option EngineState :=
  match applyAudio (applyTurnComplete (applyTranscriptionDeltas s m) now m) currentTime m with
  | none => none
  | some s4 => some (applyInterrupted s4 m)

/-- Lines 146–167, the playback-relevant part of `stopConversation`:
stop every source in the active set and clear it.  `nextStartTimeRef`
is not touched (neither here nor in `startConversation`), and neither
are the transcription accumulators or the conversation log. -/
def stopConversation (s : EngineState) : EngineState :=
  { s with
    sources := s.sources.map fun src =>
      if src.id ∈ s.activeIds then { src with stopped := true } else src,
    activeIds := [] }

/-- A sequence of `onmessage` invocations, each with its `Date.now()`
and output-clock reading. -/
def runEngine (s : EngineState) : List (Nat × ℚ × LiveServerMessage) → Option EngineState
  | [] => some s
  | (now, c, m) :: rest =>
      match handleMessage s now c m with
      | none => none
      | some next => runEngine next rest

lemma applyTranscriptionDeltas_fields (s : EngineState) (m : LiveServerMessage) :
    (applyTranscriptionDeltas s m).nextStartTime = s.nextStartTime
    ∧ (applyTranscriptionDeltas s m).activeIds = s.activeIds
    ∧ (applyTranscriptionDeltas s m).sources = s.sources
    ∧ (applyTranscriptionDeltas s m).nextId = s.nextId
    ∧ (applyTranscriptionDeltas s m).conversation = s.conversation
    ∧ (applyTranscriptionDeltas s m).currentInputTranscription
        = s.currentInputTranscription ++ m.inputTranscription.getD ""
    ∧ (applyTranscriptionDeltas s m).currentOutputTranscription
        = s.currentOutputTranscription ++ m.outputTranscription.getD "" := by
  unfold applyTranscriptionDeltas
  cases m.inputTranscription <;> cases m.outputTranscription <;> simp

lemma applyTurnComplete_fields (s : EngineState) (now : Nat) (m : LiveServerMessage) :
    (applyTurnComplete s now m).nextStartTime = s.nextStartTime
    ∧ (applyTurnComplete s now m).activeIds = s.activeIds
    ∧ (applyTurnComplete s now m).sources = s.sources
    ∧ (applyTurnComplete s now m).nextId = s.nextId := by
  unfold applyTurnComplete
  split_ifs <;> simp

lemma applyTurnComplete_true (s : EngineState) (now : Nat) (m : LiveServerMessage)
    (htc : m.turnComplete = true) :
    (applyTurnComplete s now m).currentInputTranscription = ""
    ∧ (applyTurnComplete s now m).currentOutputTranscription = ""
    ∧ (applyTurnComplete s now m).conversation
      = s.conversation
        ++ (if jsTrim s.currentInputTranscription ≠ "" then
              [ConversationTurn.mk ("user-" ++ toString now) .user
                (jsTrim s.currentInputTranscription)] else [])
        ++ (if jsTrim s.currentOutputTranscription ≠ "" then
              [ConversationTurn.mk ("model-" ++ toString now) .model
                (jsTrim s.currentOutputTranscription)] else []) := by
  unfold applyTurnComplete
  rw [if_pos htc]
  simp [List.append_assoc]

lemma applyAudio_cases {s : EngineState} {c : ℚ} {m : LiveServerMessage} {s' : EngineState}
    (h : applyAudio s c m = some s') :
    (m.audioData = none ∧ s' = s)
    ∨ ∃ dur : ℚ, 0 ≤ dur
        ∧ s'.activeIds = s.nextId :: s.activeIds
        ∧ s'.sources
            = ScheduledSource.mk s.nextId (max s.nextStartTime c) dur c false :: s.sources
        ∧ s'.nextStartTime = max s.nextStartTime c + dur
        ∧ s'.nextId = s.nextId + 1
        ∧ s'.currentInputTranscription = s.currentInputTranscription
        ∧ s'.currentOutputTranscription = s.currentOutputTranscription
        ∧ s'.conversation = s.conversation := by
  unfold applyAudio at h
  cases ha : m.audioData with
  | none =>
    rw [ha] at h
    simp only [Option.some.injEq] at h
    exact Or.inl ⟨rfl, h.symm⟩
  | some bytes =>
    rw [ha] at h
    dsimp only at h
    cases hdec : decodeAudioData bytes 24000 1 with
    | error e => rw [hdec] at h; cases h
    | ok buf =>
      rw [hdec] at h
      simp only [Option.some.injEq] at h
      refine Or.inr ⟨((buf.channels.getD 0 []).length : ℚ) / 24000, ?_, ?_⟩
      · positivity
      · rw [← h]
        exact ⟨rfl, rfl, rfl, rfl, rfl, rfl, rfl⟩

lemma applyInterrupted_false (s : EngineState) {m : LiveServerMessage}
    (hni : m.interrupted = false) : applyInterrupted s m = s := by
  unfold applyInterrupted
  rw [hni]
  simp

lemma applyInterrupted_true (s : EngineState) {m : LiveServerMessage}
    (hi : m.interrupted = true) :
    applyInterrupted s m
      = { s with
          sources := s.sources.map fun src =>
            if src.id ∈ s.activeIds then { src with stopped := true } else src,
          activeIds := [], nextStartTime := 0 } := by
  unfold applyInterrupted
  rw [hi]
  simp

lemma applyInterrupted_preserves (s : EngineState) (m : LiveServerMessage) :
    (applyInterrupted s m).currentInputTranscription = s.currentInputTranscription
    ∧ (applyInterrupted s m).currentOutputTranscription = s.currentOutputTranscription
    ∧ (applyInterrupted s m).conversation = s.conversation := by
  unfold applyInterrupted
  split_ifs <;> simp

lemma handleMessage_elim {s : EngineState} {now : Nat} {c : ℚ} {m : LiveServerMessage}
    {s' : EngineState} (h : handleMessage s now c m = some s') :
    ∃ s4, applyAudio (applyTurnComplete (applyTranscriptionDeltas s m) now m) c m = some s4
      ∧ s' = applyInterrupted s4 m := by
  unfold handleMessage at h
  cases hA : applyAudio (applyTurnComplete (applyTranscriptionDeltas s m) now m) c m with
  | none => rw [hA] at h; cases h
  | some s4 =>
    rw [hA] at h
    simp only [Option.some.injEq] at h
    exact ⟨s4, rfl, h.symm⟩

/-- Whenever a message carrying audio is handled to completion, a new
source is prepended, scheduled at `max nextStartTime currentTime`, with
its creation clock recorded. -/
lemma handleMessage_schedules {s : EngineState} {now : Nat} {c : ℚ} {m : LiveServerMessage}
    {s' : EngineState} (ha : m.audioData.isSome) (h : handleMessage s now c m = some s') :
    ∃ src rest, s'.sources = src :: rest
      ∧ src.startTime = max s.nextStartTime c ∧ src.createdAt = c ∧ src.id = s.nextId := by
  obtain ⟨s4, hA, hs'⟩ := handleMessage_elim h
  obtain ⟨ht1, ht2, ht3, ht4⟩ := applyTurnComplete_fields (applyTranscriptionDeltas s m) now m
  obtain ⟨hd1, hd2, hd3, hd4, -⟩ := applyTranscriptionDeltas_fields s m
  rcases applyAudio_cases hA with ⟨hnone, -⟩ | ⟨dur, -, hact, hsrc, hnst, -, -, -, -⟩
  · rw [hnone] at ha; cases ha
  · simp only [ht1, ht3, ht4, hd1, hd3, hd4] at hsrc
    subst hs'
    cases hi : m.interrupted with
    | true =>
      rw [applyInterrupted_true s4 hi]
      dsimp only
      rw [hsrc, List.map_cons]
      refine ⟨_, _, rfl, ?_, ?_, ?_⟩ <;> (split_ifs <;> rfl)
    | false =>
      rw [applyInterrupted_false s4 hi]
      exact ⟨_, _, hsrc, rfl, rfl, rfl⟩

/-- Audio scheduling with no interruption flag: the new source and the
advanced cursor, in full. -/
lemma handleMessage_schedules_uninterrupted {s : EngineState} {now : Nat} {c : ℚ}
    {m : LiveServerMessage} {s' : EngineState} (ha : m.audioData.isSome)
    (hni : m.interrupted = false) (h : handleMessage s now c m = some s') :
    ∃ dur : ℚ, 0 ≤ dur
      ∧ s'.sources
          = ScheduledSource.mk s.nextId (max s.nextStartTime c) dur c false :: s.sources
      ∧ s'.nextStartTime = max s.nextStartTime c + dur
      ∧ s'.activeIds = s.nextId :: s.activeIds := by
  obtain ⟨s4, hA, hs'⟩ := handleMessage_elim h
  obtain ⟨ht1, ht2, ht3, ht4⟩ := applyTurnComplete_fields (applyTranscriptionDeltas s m) now m
  obtain ⟨hd1, hd2, hd3, hd4, -⟩ := applyTranscriptionDeltas_fields s m
  rcases applyAudio_cases hA with ⟨hnone, -⟩ | ⟨dur, hdpos, hact, hsrc, hnst, -, -, -, -⟩
  · rw [hnone] at ha; cases ha
  · subst hs'
    rw [applyInterrupted_false s4 hni]
    simp only [ht1, ht2, ht3, ht4, hd1, hd2, hd3, hd4] at hact hsrc hnst
    exact ⟨dur, hdpos, hsrc, hnst, hact⟩

/-- The scheduling invariant of the playback engine: every source was
scheduled no earlier than the clock it saw, sources are non-overlapping in
chronological (reverse) order, and the cursor sits at or after the end of
the newest source. -/
def EngineInv (s : EngineState) : Prop :=
  (∀ src ∈ s.sources, src.createdAt ≤ src.startTime)
  ∧ List.Chain' (fun a b => a.startTime + a.duration ≤ b.startTime) s.sources.reverse
  ∧ ∀ newest, s.sources.head? = some newest →
      newest.startTime + newest.duration ≤ s.nextStartTime

lemma handleMessage_inv {s : EngineState} {now : Nat} {c : ℚ} {m : LiveServerMessage}
    {s' : EngineState} (hni : m.interrupted = false)
    (h : handleMessage s now c m = some s') (hinv : EngineInv s) : EngineInv s' := by
  obtain ⟨s4, hA, hs'⟩ := handleMessage_elim h
  obtain ⟨ht1, ht2, ht3, ht4⟩ := applyTurnComplete_fields (applyTranscriptionDeltas s m) now m
  obtain ⟨hd1, hd2, hd3, hd4, -⟩ := applyTranscriptionDeltas_fields s m
  subst hs'
  rw [applyInterrupted_false s4 hni]
  rcases applyAudio_cases hA with ⟨-, hEq⟩ | ⟨dur, hdpos, hact, hsrc, hnst, -, -, -, -⟩
  · subst hEq
    unfold EngineInv
    rw [ht3, hd3, ht1, hd1]
    exact hinv
  · simp only [ht1, ht3, ht4, hd1, hd3, hd4] at hact hsrc hnst
    unfold EngineInv
    refine ⟨?_, ?_, ?_⟩
    · intro src hmem
      rw [hsrc] at hmem
      rcases List.mem_cons.mp hmem with rfl | hmem'
      · exact le_max_right _ _
      · exact hinv.1 src hmem'
    · rw [hsrc, List.reverse_cons]
      refine List.Chain'.append hinv.2.1 (List.chain'_singleton _) ?_
      intro x hx y hy
      rw [List.getLast?_reverse] at hx
      simp only [List.head?_cons, Option.mem_def, Option.some.injEq] at hy
      subst hy
      have hle := hinv.2.2 x hx
      exact le_trans hle (le_max_left _ _)
    · intro newest hnew
      rw [hsrc] at hnew
      simp only [List.head?_cons, Option.some.injEq] at hnew
      subst hnew
      rw [hnst]

lemma runEngine_inv : ∀ (events : List (Nat × ℚ × LiveServerMessage)) (s s' : EngineState),
    (∀ e ∈ events, e.2.2.interrupted = false) →
    runEngine s events = some s' → EngineInv s → EngineInv s' := by
  intro events
  induction events with
  | nil =>
    intro s s' _ h hi
    unfold runEngine at h
    simp only [Option.some.injEq] at h
    rwa [← h]
  | cons e rest ih =>
    intro s s' hall h hi
    obtain ⟨now, c, m⟩ := e
    unfold runEngine at h
    cases hH : handleMessage s now c m with
    | none => rw [hH] at h; cases h
    | some t =>
      rw [hH] at h
      refine ih t s' (fun e he => hall e (List.mem_cons_of_mem _ he)) h ?_
      exact handleMessage_inv (hall (now, c, m) (List.mem_cons_self _ _)) hH hi

lemma pcm_quant_bound (s : ℚ) :
    |(jsTrunc (s * 32768) : ℚ) / 32768 - s| ≤ 1 / 32768 := by
  have h := jsTrunc_le_self_add_one (s * 32768)
  have heq : (jsTrunc (s * 32768) : ℚ) / 32768 - s
      = ((jsTrunc (s * 32768) : ℚ) - s * 32768) / 32768 := by ring
  rw [heq, abs_div, abs_of_pos (by norm_num : (0 : ℚ) < 32768)]
  rw [div_le_div_iff_of_pos_right (by norm_num : (0 : ℚ) < 32768)]
  exact h.le

end Synapse

/-- C9: for every byte array (entries < 256, as for a `Uint8Array`),
`decode (encode bytes)` returns exactly the original bytes; `encode` is a
total Lean function, hence deterministic. -/
theorem c9_base64_round_trip (bytes : List Nat) (h : ∀ b ∈ bytes, b < 256) :
    Synapse.decode (Synapse.encode bytes) = some bytes :=
  Synapse.decodeChunks_encodeChunks bytes h

/-- C9 witness: concrete round trip on the bytes `[0, 77, 255, 1]`. -/
theorem c9_base64_round_trip_witness :
    Synapse.decode (Synapse.encode [0, 77, 255, 1]) = some [0, 77, 255, 1] :=
  c9_base64_round_trip [0, 77, 255, 1] (by decide)

/-- C3 counterexample: at the sample `s = 3/65536` (i.e. `s·32768 = 1.5`) the
code stores the truncation `1`, but `round(s·32768) = 2`; the emitted bytes
are `[1, 0]`, not the `[2, 0]` the claim's rounding predicts. -/
theorem c3_round_counterexample :
    Synapse.createBlobBytes [(3 : ℚ) / 65536] = [1, 0]
    ∧ Synapse.int16LeBytes (round (((3 : ℚ) / 65536) * 32768)) = [2, 0]
    ∧ Synapse.createBlobBytes [(3 : ℚ) / 65536]
        ≠ Synapse.int16LeBytes (round (((3 : ℚ) / 65536) * 32768)) := by
  have hq : (3 : ℚ) / 65536 * 32768 = 3 / 2 := by norm_num
  have hfl : Synapse.jsTrunc ((3 : ℚ) / 65536 * 32768) = 1 := by
    unfold Synapse.jsTrunc
    rw [if_pos (by norm_num), hq, Int.floor_eq_iff]
    norm_num
  have hpcm : Synapse.pcm16Sample ((3 : ℚ) / 65536) = 1 := by
    unfold Synapse.pcm16Sample Synapse.toInt16
    rw [hfl]
    norm_num
  have hround : round (((3 : ℚ) / 65536) * 32768) = 2 := by
    rw [hq, round_eq, show (3 : ℚ) / 2 + 1 / 2 = 2 by norm_num]
    norm_num
  have e1 : Synapse.createBlobBytes [(3 : ℚ) / 65536] = [1, 0] := by
    rw [Synapse.createBlobBytes_cons, hpcm]
    rfl
  have e2 : Synapse.int16LeBytes (round (((3 : ℚ) / 65536) * 32768)) = [2, 0] := by
    rw [hround]
    rfl
  exact ⟨e1, e2, by rw [e1, e2]; decide⟩

/-- C3 (amended): the float-to-PCM16 conversion maps each sample `s` to the
16-bit signed integer obtained by truncating `s * 32768` toward zero (not
rounding), emitted as its two's-complement bit pattern in two little-endian
bytes per sample with order preserved; samples outside `[-1, 1)` are not
clamped but wrap modulo 2^16, while for samples inside `[-1, 1)` the stored
pattern is exactly the (unwrapped) truncation. -/
theorem c3_pcm16_truncation (data : List ℚ) :
    Synapse.createBlobBytes data
      = data.flatMap (fun s => [Synapse.specPcm16Bits s % 256, Synapse.specPcm16Bits s / 256])
    ∧ (Synapse.createBlobBytes data).length = 2 * data.length
    ∧ (∀ s : ℚ, -1 ≤ s → s < 1 →
        (Synapse.specPcm16Bits s : Int) =
          if Synapse.jsTrunc (s * 32768) < 0 then Synapse.jsTrunc (s * 32768) + 65536
          else Synapse.jsTrunc (s * 32768)) := by
  refine ⟨?_, Synapse.createBlobBytes_length data, ?_⟩
  · induction data with
    | nil => rfl
    | cons a l ih =>
      rw [Synapse.createBlobBytes_cons, List.flatMap_cons,
        Synapse.int16LeBytes_eq_specBits, ih]
  · intro s hs1 hs2
    obtain ⟨hb1, hb2⟩ := Synapse.jsTrunc_bounds hs1 hs2
    unfold Synapse.specPcm16Bits
    split_ifs <;> omega

/-- C3 witness for the inner clause of the amended theorem, at the concrete
sample `-1/2` and byte list `[1/2]`. -/
theorem c3_pcm16_truncation_witness :
    Synapse.createBlobBytes [(1 : ℚ) / 2]
      = [(1 : ℚ) / 2].flatMap
          (fun s => [Synapse.specPcm16Bits s % 256, Synapse.specPcm16Bits s / 256])
    ∧ (Synapse.specPcm16Bits (-(1 : ℚ) / 2) : Int) =
        if Synapse.jsTrunc (-(1 : ℚ) / 2 * 32768) < 0 then
          Synapse.jsTrunc (-(1 : ℚ) / 2 * 32768) + 65536
        else Synapse.jsTrunc (-(1 : ℚ) / 2 * 32768) :=
  ⟨(c3_pcm16_truncation [(1 : ℚ) / 2]).1,
    (c3_pcm16_truncation []).2.2 (-(1 : ℚ) / 2) (by norm_num) (by norm_num)⟩

/-- C4: a float array with all samples in `[-1, 1)`, encoded to PCM16 bytes
by `createBlob` (whose Base64 envelope decodes back to exactly those bytes)
and decoded again as mono by `decodeAudioData`, yields one channel of the
same length whose every sample is within `1/32768` of the original. -/
theorem c4_pcm_round_trip (samples : List ℚ)
    (h : ∀ s ∈ samples, -1 ≤ s ∧ s < 1) :
    Synapse.decode (Synapse.createBlob samples).data = some (Synapse.createBlobBytes samples)
    ∧ Synapse.decodeAudioData (Synapse.createBlobBytes samples) 24000 1
        = Except.ok ⟨24000, [samples.map fun s => (Synapse.jsTrunc (s * 32768) : ℚ) / 32768]⟩
    ∧ (samples.map fun s => (Synapse.jsTrunc (s * 32768) : ℚ) / 32768).length = samples.length
    ∧ ∀ i < samples.length,
        |(samples.map fun s => (Synapse.jsTrunc (s * 32768) : ℚ) / 32768).getD i 0
          - samples.getD i 0| ≤ 1 / 32768 := by
  have hlen := Synapse.createBlobBytes_length samples
  have hb16 := Synapse.bytesToInt16_createBlobBytes samples h
  refine ⟨Synapse.decodeChunks_encodeChunks _ (Synapse.createBlobBytes_bytes_lt samples),
    ?_, by rw [List.length_map], ?_⟩
  · have hch : (List.range samples.length).map
        (fun i => (((samples.map fun s => Synapse.jsTrunc (s * 32768)).getD i 0 : Int) : ℚ) / 32768)
        = samples.map fun s => (Synapse.jsTrunc (s * 32768) : ℚ) / 32768 := by
      have h2 := Synapse.map_range_getD (samples.map fun s => Synapse.jsTrunc (s * 32768)) 0
        (fun v : Int => (v : ℚ) / 32768)
      rw [List.length_map] at h2
      rw [h2, List.map_map]
      rfl
    unfold Synapse.decodeAudioData
    rw [if_neg (by omega), hb16, List.length_map]
    simp only [Nat.cast_one, div_one, Int.floor_natCast, Int.toNat_natCast,
      List.range_succ, List.range_zero, List.nil_append, List.map_cons, List.map_nil,
      mul_one, add_zero]
    rw [hch]
  · intro i hi
    have hptr : (samples.map fun s => (Synapse.jsTrunc (s * 32768) : ℚ) / 32768).getD i 0
        = (Synapse.jsTrunc (samples.getD i 0 * 32768) : ℚ) / 32768 := by
      rw [List.getD_eq_getElem _ _ (by simpa using hi), List.getD_eq_getElem _ _ hi,
        List.getElem_map]
    rw [hptr]
    exact Synapse.pcm_quant_bound _

/-- C4 witness: concrete round trip at `[1/2, -1/2]`. -/
theorem c4_pcm_round_trip_witness :
    Synapse.decode (Synapse.createBlob [(1 : ℚ) / 2, -(1 : ℚ) / 2]).data
        = some (Synapse.createBlobBytes [(1 : ℚ) / 2, -(1 : ℚ) / 2])
    ∧ Synapse.decodeAudioData (Synapse.createBlobBytes [(1 : ℚ) / 2, -(1 : ℚ) / 2]) 24000 1
        = Except.ok ⟨24000, [[(1 : ℚ) / 2, -(1 : ℚ) / 2].map
            fun s => (Synapse.jsTrunc (s * 32768) : ℚ) / 32768]⟩
    ∧ ([(1 : ℚ) / 2, -(1 : ℚ) / 2].map
          fun s => (Synapse.jsTrunc (s * 32768) : ℚ) / 32768).length
        = ([(1 : ℚ) / 2, -(1 : ℚ) / 2] : List ℚ).length
    ∧ ∀ i < ([(1 : ℚ) / 2, -(1 : ℚ) / 2] : List ℚ).length,
        |([(1 : ℚ) / 2, -(1 : ℚ) / 2].map
            fun s => (Synapse.jsTrunc (s * 32768) : ℚ) / 32768).getD i 0
          - ([(1 : ℚ) / 2, -(1 : ℚ) / 2] : List ℚ).getD i 0| ≤ 1 / 32768 :=
  c4_pcm_round_trip [(1 : ℚ) / 2, -(1 : ℚ) / 2] (by norm_num)

/-- C5 counterexample: for a 30-second video sampled at 1 fps with
`maxFrames = 50` the code returns 31 frames (timestamps `0..30`; the guard
stops only when the timestamp strictly exceeds the duration, so the frame at
`t = 30` is still captured), not the 30 frames `0..29` the claim states. -/
theorem c5_inclusive_boundary_counterexample :
    Synapse.extractFramesFromVideo 30 1 50 = (List.range 31).map (fun n : ℕ => (n : ℚ))
    ∧ (Synapse.extractFramesFromVideo 30 1 50).length = 31
    ∧ (Synapse.extractFramesFromVideo 30 1 50).length ≠ 30 := by
  have h : Synapse.extractFramesFromVideo 30 1 50
      = (List.range (min (30 + 1) 50)).map (fun n : ℕ => (n : ℚ)) := by
    have := Synapse.extractFramesFromVideo_one 30 50
    exact_mod_cast this
  rw [show min (30 + 1) 50 = 31 from rfl] at h
  refine ⟨h, ?_, ?_⟩ <;> rw [h] <;> simp

/-- C5 (amended): frame extraction terminates when the timestamp strictly
exceeds the duration or `maxFrames` frames have been captured, whichever
comes first; at 1 fps over an integer duration `d` this yields the
timestamps `0, 1, …` in increasing order, `min (d + 1) maxFrames` of them —
in particular 31 frames `0..30` for a 30-second video (the boundary frame at
`t = duration` is included) and 50 frames `0..49` for a 120-second video
with `maxFrames = 50`. -/
theorem c5_frame_sampling_bounds :
    (∀ d m : ℕ, Synapse.extractFramesFromVideo (d : ℚ) 1 m
        = (List.range (min (d + 1) m)).map (fun n : ℕ => (n : ℚ)))
    ∧ Synapse.extractFramesFromVideo 30 1 50 = (List.range 31).map (fun n : ℕ => (n : ℚ))
    ∧ Synapse.extractFramesFromVideo 120 1 50 = (List.range 50).map (fun n : ℕ => (n : ℚ))
    ∧ (Synapse.extractFramesFromVideo 120 1 50).length = 50 := by
  have hgen := Synapse.extractFramesFromVideo_one
  refine ⟨hgen, ?_, ?_, ?_⟩
  · have := hgen 30 50
    rw [show min (30 + 1) 50 = 31 from rfl] at this
    exact_mod_cast this
  · have := hgen 120 50
    rw [show min (120 + 1) 50 = 50 from rfl] at this
    exact_mod_cast this
  · have := hgen 120 50
    rw [show min (120 + 1) 50 = 50 from rfl] at this
    rw [show ((120 : ℕ) : ℚ) = (120 : ℚ) by norm_num] at this
    rw [this]
    simp

/-- C6: the WAV builder emits `44 + len(pcm)` bytes: the canonical RIFF
header — `"RIFF"`, file size `36 + len`, `"WAVE"`, `"fmt "`, subchunk size
16, format 1 (PCM), the channel count, the sample rate, byte rate
`sampleRate·numChannels·2`, block align `numChannels·2`, 16 bits per
sample, `"data"`, data size `len` — followed by the PCM bytes verbatim. -/
theorem c6_wav_layout (pcm : List Nat) (sr nc : Nat)
    (hnc : 2 * nc < 65536) (hsr : sr < 4294967296)
    (hrate : sr * (nc * 2) < 4294967296) (hlen : 36 + pcm.length < 4294967296) :
    (Synapse.createWavBlob pcm sr nc).length = 44 + pcm.length
    ∧ (Synapse.createWavBlob pcm sr nc).take 4 = Synapse.strBytes "RIFF"
    ∧ Synapse.readU32le (Synapse.createWavBlob pcm sr nc) 4 = 36 + pcm.length
    ∧ ((Synapse.createWavBlob pcm sr nc).drop 8).take 4 = Synapse.strBytes "WAVE"
    ∧ ((Synapse.createWavBlob pcm sr nc).drop 12).take 4 = Synapse.strBytes "fmt "
    ∧ Synapse.readU32le (Synapse.createWavBlob pcm sr nc) 16 = 16
    ∧ Synapse.readU16le (Synapse.createWavBlob pcm sr nc) 20 = 1
    ∧ Synapse.readU16le (Synapse.createWavBlob pcm sr nc) 22 = nc % 65536
    ∧ Synapse.readU32le (Synapse.createWavBlob pcm sr nc) 24 = sr
    ∧ Synapse.readU32le (Synapse.createWavBlob pcm sr nc) 28 = sr * nc * 2
    ∧ Synapse.readU16le (Synapse.createWavBlob pcm sr nc) 32 = nc * 2
    ∧ Synapse.readU16le (Synapse.createWavBlob pcm sr nc) 34 = 16
    ∧ ((Synapse.createWavBlob pcm sr nc).drop 36).take 4 = Synapse.strBytes "data"
    ∧ Synapse.readU32le (Synapse.createWavBlob pcm sr nc) 40 = pcm.length
    ∧ (Synapse.createWavBlob pcm sr nc).drop 44 = pcm := by
  rw [Synapse.createWavBlob_flatten]
  refine ⟨?_, rfl, ?_, rfl, rfl, rfl, rfl, ?_, ?_, ?_, ?_, rfl, rfl, ?_, rfl⟩
  · simp only [List.length_cons]
    omega
  · show (36 + pcm.length) % 256 + 256 * ((36 + pcm.length) / 256 % 256)
        + 65536 * ((36 + pcm.length) / 65536 % 256)
        + 16777216 * ((36 + pcm.length) / 16777216 % 256) = 36 + pcm.length
    omega
  · show nc % 256 + 256 * (nc / 256 % 256) = nc % 65536
    omega
  · show sr % 256 + 256 * (sr / 256 % 256) + 65536 * (sr / 65536 % 256)
        + 16777216 * (sr / 16777216 % 256) = sr
    omega
  · show sr * (nc * 2) % 256 + 256 * (sr * (nc * 2) / 256 % 256)
        + 65536 * (sr * (nc * 2) / 65536 % 256)
        + 16777216 * (sr * (nc * 2) / 16777216 % 256) = sr * nc * 2
    rw [show sr * nc * 2 = sr * (nc * 2) by ring]
    have hr := hrate
    generalize sr * (nc * 2) = R at hr ⊢
    omega
  · show nc * 2 % 256 + 256 * (nc * 2 / 256 % 256) = nc * 2
    omega
  · show pcm.length % 256 + 256 * (pcm.length / 256 % 256)
        + 65536 * (pcm.length / 65536 % 256)
        + 16777216 * (pcm.length / 16777216 % 256) = pcm.length
    omega

/-- C6 witness: a 1000-byte PCM payload at 24000 Hz mono gives 1044 bytes,
with file size field 1036, sample rate field 24000 and data size field 1000. -/
theorem c6_wav_layout_witness :
    (Synapse.createWavBlob (List.replicate 1000 0) 24000 1).length = 1044
    ∧ Synapse.readU32le (Synapse.createWavBlob (List.replicate 1000 0) 24000 1) 4 = 1036
    ∧ Synapse.readU32le (Synapse.createWavBlob (List.replicate 1000 0) 24000 1) 24 = 24000
    ∧ Synapse.readU32le (Synapse.createWavBlob (List.replicate 1000 0) 24000 1) 40 = 1000 := by
  have h := c6_wav_layout (List.replicate 1000 0) 24000 1 (by norm_num) (by norm_num)
    (by norm_num) (by simp only [List.length_replicate]; norm_num)
  obtain ⟨hl, -, hf, -, -, -, -, -, hsr, -, -, -, -, hd, -⟩ := h
  refine ⟨?_, ?_, hsr, ?_⟩
  · rw [hl]
    simp only [List.length_replicate]
  · rw [hf]
    simp only [List.length_replicate]
  · rw [hd]
    simp only [List.length_replicate]

/-- C7: the source performs no length validation.  On the 6-byte input
`[1, 0, 2, 0, 3, 0]` with `numChannels = 2` — whose `byteLength` is not a
multiple of `2 * numChannels` — `decodeAudioData` silently succeeds with a
single garbled frame (the fractional `frameCount = 1.5` is truncated) instead
of failing with `MalformedAudioError` as the claim states. -/
theorem c7_no_length_validation :
    Synapse.decodeAudioData [1, 0, 2, 0, 3, 0] 24000 2
      = Except.ok ⟨24000, [[(1 : ℚ) / 32768], [(2 : ℚ) / 32768]]⟩
    ∧ 6 % (2 * 2) = 2 := by
  refine ⟨?_, rfl⟩
  have hb : Synapse.bytesToInt16 [1, 0, 2, 0, 3, 0] = [1, 2, 3] := by
    norm_num [Synapse.bytesToInt16]
  have hfl : (⌊(((3 : Nat) : ℚ)) / ((2 : Nat) : ℚ)⌋).toNat = 1 := by
    rw [show (((3 : Nat) : ℚ)) / ((2 : Nat) : ℚ) = 3 / 2 by push_cast; ring]
    rw [show ⌊(3 : ℚ) / 2⌋ = 1 by rw [Int.floor_eq_iff]; norm_num]
    rfl
  unfold Synapse.decodeAudioData
  rw [if_neg (by norm_num), hb]
  simp only [List.length_cons, List.length_nil]
  rw [hfl]
  simp only [List.range_succ, List.range_zero, List.nil_append, List.map_cons,
    List.map_nil, mul_one, zero_add, add_zero, mul_zero]
  norm_num [List.getD]

/-- C1: on a message carrying the "interrupted" flag, once the handler
completes, every buffer that was in the active playback set has been
stopped, the active set is empty and `nextStartTime` is zero; consequently
the next audio chunk scheduled afterwards (at a non-negative playback-clock
reading) starts exactly at the playback clock's current time. -/
theorem c1_interrupted_flush (s : Synapse.EngineState) (now : Nat) (c : ℚ)
    (m : Synapse.LiveServerMessage) (s' : Synapse.EngineState)
    (hint : m.interrupted = true) (h : Synapse.handleMessage s now c m = some s') :
    s'.activeIds = [] ∧ s'.nextStartTime = 0
    ∧ (∀ src ∈ s'.sources, src.id ∈ s.activeIds → src.stopped = true)
    ∧ (∀ (now2 : Nat) (c2 : ℚ) (m2 : Synapse.LiveServerMessage)
         (s2 : Synapse.EngineState),
        m2.audioData.isSome → 0 ≤ c2 → Synapse.handleMessage s' now2 c2 m2 = some s2 →
        ∃ src rest, s2.sources = src :: rest ∧ src.startTime = c2) := by
  obtain ⟨s4, hA, hs'⟩ := Synapse.handleMessage_elim h
  obtain ⟨ht1, ht2, ht3, ht4⟩ :=
    Synapse.applyTurnComplete_fields (Synapse.applyTranscriptionDeltas s m) now m
  obtain ⟨hd1, hd2, hd3, hd4, -⟩ := Synapse.applyTranscriptionDeltas_fields s m
  have hfields := Synapse.applyInterrupted_true s4 hint
  have hact0 : s'.activeIds = [] := by rw [hs', hfields]
  have hnst0 : s'.nextStartTime = 0 := by rw [hs', hfields]
  have hsrcs : s'.sources = s4.sources.map fun src =>
      if src.id ∈ s4.activeIds then { src with stopped := true } else src := by
    rw [hs', hfields]
  have hsub : ∀ a ∈ s.activeIds, a ∈ s4.activeIds := by
    rcases Synapse.applyAudio_cases hA with ⟨-, hEq⟩ | ⟨dur, -, hactA, -, -, -, -, -, -⟩
    · subst hEq
      rw [ht2, hd2]
      exact fun a ha => ha
    · rw [hactA, ht2, hd2]
      exact fun a ha => List.mem_cons_of_mem _ ha
  refine ⟨hact0, hnst0, ?_, ?_⟩
  · intro src hsrc hid
    rw [hsrcs] at hsrc
    obtain ⟨src4, hmem4, hf⟩ := List.mem_map.mp hsrc
    by_cases hin : src4.id ∈ s4.activeIds
    · rw [if_pos hin] at hf
      rw [← hf]
    · rw [if_neg hin] at hf
      subst hf
      exact absurd (hsub _ hid) hin
  · intro now2 c2 m2 s2 ha2 hc2 h2
    obtain ⟨src, rest, hs2, hstart, -, -⟩ := Synapse.handleMessage_schedules ha2 h2
    refine ⟨src, rest, hs2, ?_⟩
    rw [hstart, hnst0]
    exact max_eq_right hc2

/-- C1 witness: a state with one active playing source and cursor 5; an
interrupted-only message stops it, clears the set, zeroes the cursor. -/
theorem c1_interrupted_flush_witness :
    (({ nextStartTime := 0, activeIds := [],
        sources := [⟨0, 1, 2, 1, true⟩], nextId := 1,
        currentInputTranscription := "", currentOutputTranscription := "",
        conversation := [] } : Synapse.EngineState)).activeIds = []
    ∧ (({ nextStartTime := 0, activeIds := [],
          sources := [⟨0, 1, 2, 1, true⟩], nextId := 1,
          currentInputTranscription := "", currentOutputTranscription := "",
          conversation := [] } : Synapse.EngineState)).nextStartTime = 0
    ∧ (({ nextStartTime := 0, activeIds := [],
          sources := [⟨0, 1, 2, 1, true⟩], nextId := 1,
          currentInputTranscription := "", currentOutputTranscription := "",
          conversation := [] } : Synapse.EngineState)).sources.all
        Synapse.ScheduledSource.stopped = true := by
  have h := c1_interrupted_flush
    { nextStartTime := 5, activeIds := [0], sources := [⟨0, 1, 2, 1, false⟩],
      nextId := 1, currentInputTranscription := "",
      currentOutputTranscription := "", conversation := [] }
    7 3 ⟨none, none, false, none, true⟩
    { nextStartTime := 0, activeIds := [], sources := [⟨0, 1, 2, 1, true⟩],
      nextId := 1, currentInputTranscription := "",
      currentOutputTranscription := "", conversation := [] }
    rfl rfl
  exact ⟨h.1, h.2.1, rfl⟩

/-- C2: (i) every completed, uninterrupted handling of a message carrying
audio schedules exactly one new source at `max nextStartTime currentTime`,
records its creation clock, advances `nextStartTime` by the buffer's
duration, and tracks the source in the active set; (ii) over any run from
channel open with no interrupted signal, consecutive scheduled sources
satisfy `start(n+1) ≥ start(n) + d(n)` and every source starts no earlier
than the clock reading at its scheduling. -/
theorem c2_sequential_scheduling :
    (∀ (s : Synapse.EngineState) (now : Nat) (c : ℚ) (m : Synapse.LiveServerMessage)
       (s' : Synapse.EngineState),
        m.audioData.isSome → m.interrupted = false →
        Synapse.handleMessage s now c m = some s' →
        ∃ dur : ℚ, 0 ≤ dur
          ∧ s'.sources = Synapse.ScheduledSource.mk s.nextId (max s.nextStartTime c)
              dur c false :: s.sources
          ∧ s'.nextStartTime = max s.nextStartTime c + dur
          ∧ s'.activeIds = s.nextId :: s.activeIds)
    ∧ (∀ (events : List (Nat × ℚ × Synapse.LiveServerMessage))
         (s' : Synapse.EngineState),
        (∀ e ∈ events, e.2.2.interrupted = false) →
        Synapse.runEngine Synapse.initState events = some s' →
        List.Chain' (fun a b => a.startTime + a.duration ≤ b.startTime)
          s'.sources.reverse
        ∧ ∀ src ∈ s'.sources, src.createdAt ≤ src.startTime) := by
  constructor
  · intro s now c m s' ha hni h
    exact Synapse.handleMessage_schedules_uninterrupted ha hni h
  · intro events s' hall hrun
    have hinv : Synapse.EngineInv Synapse.initState := by
      refine ⟨?_, ?_, ?_⟩ <;> simp [Synapse.initState, Synapse.EngineInv]
    have hfin := Synapse.runEngine_inv events Synapse.initState s' hall hrun hinv
    exact ⟨hfin.2.1, hfin.1⟩

/-- C8: on a turn-complete message the two accumulators (including any
deltas carried by the same message) are trimmed and, for each non-empty
one, a turn is appended in the fixed order user before model; both
accumulators are then reset to empty. -/
theorem c8_turn_complete_order (s : Synapse.EngineState) (now : Nat) (c : ℚ)
    (m : Synapse.LiveServerMessage) (s' : Synapse.EngineState)
    (htc : m.turnComplete = true) (h : Synapse.handleMessage s now c m = some s') :
    s'.currentInputTranscription = "" ∧ s'.currentOutputTranscription = ""
    ∧ s'.conversation = s.conversation
        ++ (if Synapse.jsTrim (s.currentInputTranscription ++ m.inputTranscription.getD "")
              ≠ "" then
              [Synapse.ConversationTurn.mk ("user-" ++ toString now) Synapse.Speaker.user
                (Synapse.jsTrim (s.currentInputTranscription ++ m.inputTranscription.getD ""))]
            else [])
        ++ (if Synapse.jsTrim (s.currentOutputTranscription ++ m.outputTranscription.getD "")
              ≠ "" then
              [Synapse.ConversationTurn.mk ("model-" ++ toString now) Synapse.Speaker.model
                (Synapse.jsTrim (s.currentOutputTranscription ++ m.outputTranscription.getD ""))]
            else []) := by
  obtain ⟨s4, hA, hs'⟩ := Synapse.handleMessage_elim h
  obtain ⟨-, -, -, -, hdc, hdi, hdo⟩ := Synapse.applyTranscriptionDeltas_fields s m
  obtain ⟨hti, hto, htcv⟩ :=
    Synapse.applyTurnComplete_true (Synapse.applyTranscriptionDeltas s m) now m htc
  obtain ⟨hpi, hpo, hpc⟩ := Synapse.applyInterrupted_preserves s4 m
  rcases Synapse.applyAudio_cases hA with ⟨-, hEq⟩ | ⟨dur, -, -, -, -, -, hci, hco, hcv⟩
  · subst hEq
    refine ⟨?_, ?_, ?_⟩
    · rw [hs', hpi, hti]
    · rw [hs', hpo, hto]
    · rw [hs', hpc, htcv, hdc, hdi, hdo]
  · refine ⟨?_, ?_, ?_⟩
    · rw [hs', hpi, hci, hti]
    · rw [hs', hpo, hco, hto]
    · rw [hs', hpc, hcv, htcv, hdc, hdi, hdo]

/-- C8 witness: accumulated input "hello" and output "hi there" yield, at
turn-complete, the conversation `[user "hello", model "hi there"]`. -/
theorem c8_turn_complete_order_witness :
    (({ nextStartTime := 0, activeIds := [], sources := [], nextId := 0,
        currentInputTranscription := "", currentOutputTranscription := "",
        conversation := [⟨"user-7", Synapse.Speaker.user, "hello"⟩,
          ⟨"model-7", Synapse.Speaker.model, "hi there"⟩] } :
        Synapse.EngineState)).currentInputTranscription = ""
    ∧ (({ nextStartTime := 0, activeIds := [], sources := [], nextId := 0,
          currentInputTranscription := "", currentOutputTranscription := "",
          conversation := [⟨"user-7", Synapse.Speaker.user, "hello"⟩,
            ⟨"model-7", Synapse.Speaker.model, "hi there"⟩] } :
          Synapse.EngineState)).conversation
        = [⟨"user-7", Synapse.Speaker.user, "hello"⟩,
           ⟨"model-7", Synapse.Speaker.model, "hi there"⟩] := by
  have h := c8_turn_complete_order
    { nextStartTime := 0, activeIds := [], sources := [], nextId := 0,
      currentInputTranscription := "hello",
      currentOutputTranscription := " hi there ", conversation := [] }
    7 0 ⟨none, none, true, none, false⟩
    { nextStartTime := 0, activeIds := [], sources := [], nextId := 0,
      currentInputTranscription := "", currentOutputTranscription := "",
      conversation := [⟨"user-7", Synapse.Speaker.user, "hello"⟩,
        ⟨"model-7", Synapse.Speaker.model, "hi there"⟩] }
    rfl rfl
  exact ⟨h.1, rfl⟩

/-- C10: teardown stops every source in the active set and clears it, but
leaves `nextStartTime` at its last value (and the accumulators and the
conversation log untouched); the first audio chunk handled after a stop is
therefore scheduled at `max staleCursor currentClock`, not necessarily at
the new clock reading. -/
theorem c10_stop_leaves_cursor (s : Synapse.EngineState) :
    (Synapse.stopConversation s).nextStartTime = s.nextStartTime
    ∧ (Synapse.stopConversation s).activeIds = []
    ∧ (∀ src ∈ (Synapse.stopConversation s).sources,
        src.id ∈ s.activeIds → src.stopped = true)
    ∧ (Synapse.stopConversation s).currentInputTranscription
        = s.currentInputTranscription
    ∧ (Synapse.stopConversation s).conversation = s.conversation
    ∧ (∀ (now : Nat) (c : ℚ) (m : Synapse.LiveServerMessage)
         (s2 : Synapse.EngineState),
        m.audioData.isSome →
        Synapse.handleMessage (Synapse.stopConversation s) now c m = some s2 →
        ∃ src rest, s2.sources = src :: rest
          ∧ src.startTime = max s.nextStartTime c) := by
  have hsrcs : (Synapse.stopConversation s).sources = s.sources.map fun src =>
      if src.id ∈ s.activeIds then { src with stopped := true } else src := rfl
  refine ⟨rfl, rfl, ?_, rfl, rfl, ?_⟩
  · intro src hsrc hid
    rw [hsrcs] at hsrc
    obtain ⟨src0, hmem, hf⟩ := List.mem_map.mp hsrc
    by_cases hin : src0.id ∈ s.activeIds
    · rw [if_pos hin] at hf
      rw [← hf]
    · rw [if_neg hin] at hf
      subst hf
      exact absurd hid hin
  · intro now c m s2 ha h
    obtain ⟨src, rest, hs2, hstart, -, -⟩ := Synapse.handleMessage_schedules ha h
    exact ⟨src, rest, hs2, hstart⟩
